import Mathlib

/-!
# Verification of the blockgui workflow editor's pipeline-assembly core

Shallow embedding of `src/workflow_editor.py` (and its catalog loader).
Blocks placed on the canvas are modelled by their Python object identity
(a natural number id), the per-flag UI state (checkbox checked?, line-edit
text) by explicit fields, and the `os.path.expanduser` environment call by
a function parameter `eu`.  All dictionaries are modelled as insertion
ordered association lists, matching CPython dict semantics.
-/

/-- `BlockFlag` dataclass (workflow_editor.py lines 44-65). -/
structure BlockFlag where
  key : String
  label : String
  long_option : String
  short_option : Option String := none
  default_value : String := ""
  takes_value : Bool := true
  default_checked : Bool := false
  placeholder : Option String := none
  description : Option String := none
deriving DecidableEq

/-- `BlockDefinition` dataclass (lines 68-79). -/
structure BlockDefinition where
  identifier : String
  title : String
  command : String
  input : String := "any"
  output : String := "any"
  color : String := "gray"
  include_in_bootstrap : Bool := true
  flags : List BlockFlag := []
deriving DecidableEq

/-- The characters Python's `str.strip()` removes (ASCII whitespace). -/
def pyWhitespaceChar (c : Char) : Bool :=
  c = ' ' || c = '\t' || c = '\n' || c = '\r' || c = '\x0b' || c = '\x0c'

/-- Python `str.strip()`: drop leading and trailing whitespace. -/
def pyStrip (s : String) : String :=
  ⟨((s.data.dropWhile pyWhitespaceChar).reverse.dropWhile pyWhitespaceChar).reverse⟩

/-- Python `str.startswith(p)`. -/
def pyStartsWith (s p : String) : Bool :=
  p.data.isPrefixOf s.data

/-- Python `s.replace(old, new)` for a single-character `old`. -/
def pyReplaceChar (s : String) (old : Char) (new : String) : String :=
  ⟨s.data.foldr (fun c acc => if c = old then new.data ++ acc else c :: acc) []⟩

/-- `ensure_prefixed` (lines 108-117): normalise an option string, adding the
dash prefix when missing.  The argument is `Option String` because Python
callers may pass `None`. -/
def ensure_prefixed (option : Option String) (pre : String) : String :=
  match option with
  | none => ""
  | some s =>
    if s = "" then ""
    else
      let t := pyStrip s
      if t = "" then "" else if pyStartsWith t "-" then t else pre ++ t

/-- The characters `shlex.quote` considers safe: ASCII word characters and
the punctuation underscore, at-sign, percent, plus, equals, colon, comma,
dot, slash, dash (its `_find_unsafe` regular expression). -/
def shlexSafeChar (c : Char) : Bool :=
  c.isAlpha || c.isDigit || c = '_' || c = '@' || c = '%' || c = '+' ||
  c = '=' || c = ':' || c = ',' || c = '.' || c = '/' || c = '-'

/-- Python `shlex.quote`: return `s` unchanged when it is non-empty and
entirely safe, `''` when empty, otherwise wrap in single quotes escaping
embedded single quotes. -/
def shlexQuote (s : String) : String :=
  if s = "" then "''"
  else if s.data.all shlexSafeChar then s
  else "'" ++ pyReplaceChar s '\'' "'\"'\"'" ++ "'"

/-- One `FlagWidget` (lines 82-96): the flag plus the current UI state of
its embedded widgets.  `checkbox = some b` means the checkbox widget exists
and `isChecked() = b`; `value_text = some s` means the line edit exists and
holds text `s`. -/
structure FlagWidget where
  flag : BlockFlag
  checkbox : Option Bool
  value_text : Option String
deriving DecidableEq

/-- Python `sep.join(xs)`. -/
def pyJoin (sep : String) : List String → String
  | [] => ""
  | [x] => x
  | x :: y :: rest => x ++ sep ++ pyJoin sep (y :: rest)

/-- One iteration of the loop in `CanvasBlock.flag_arguments`
(lines 374-391): possibly append this widget's argument.  `eu` models
`os.path.expanduser`, an environment-dependent function. -/
def flagArgStep (eu : String → String) (args : List String) (w : FlagWidget) :
    List String :=
  let option := w.flag.long_option
  if option = "" then args
  else
    match w.checkbox with
    | none => args
    | some checked =>
      if ¬checked then args
      else if w.flag.takes_value then
        match w.value_text with
        | none => args
        | some txt =>
          let value := pyStrip txt
          if value = "" then args
          else args ++ [option ++ " " ++ shlexQuote (eu value)]
      else args ++ [option]

/-- `CanvasBlock.flag_arguments` (lines 371-392). -/
def flag_arguments (eu : String → String) (ws : List FlagWidget) : List String :=
  ws.foldl (flagArgStep eu) []

/-- A placed block: `id` is the Python object identity, `command` the
definition's command template, `flag_widgets` the embedded flag widgets. -/
structure CanvasBlock where
  id : Nat
  command : String
  flag_widgets : List FlagWidget
deriving DecidableEq

/-- The connection-relevant editor state: placed blocks in insertion order
and directed connections (source id, target id) in insertion order. -/
structure EditorState where
  canvas_blocks : List CanvasBlock
  connections : List (Nat × Nat)
deriving DecidableEq

/-! ## Python dict operations (insertion-ordered association lists) -/

/-- `d[k] = v`: update in place when the key exists, else append. -/
def dset (d : List (Nat × Nat)) (k v : Nat) : List (Nat × Nat) :=
  if d.any (fun p => decide (p.1 = k)) then
    d.map (fun p => if p.1 = k then (k, v) else p)
  else d ++ [(k, v)]

/-- `d.get(k)`. -/
def dget (d : List (Nat × Nat)) (k : Nat) : Option Nat :=
  (d.find? (fun p => decide (p.1 = k))).map Prod.snd

/-- `d.setdefault(k, v)`. -/
def dsetdefault (d : List (Nat × Nat)) (k v : Nat) : List (Nat × Nat) :=
  if d.any (fun p => decide (p.1 = k)) then d else d ++ [(k, v)]

/-! ## `WorkflowEditor.ordered_blocks` (lines 780-815) -/

/-- `{block: 0 for block in self.canvas_blocks}`. -/
def initIncoming (blocks : List Nat) : List (Nat × Nat) :=
  blocks.foldl (fun d b => dset d b 0) []

/-- One iteration of the loop over `self.connections` (lines 792-795):
`outgoing[src] = tgt`, `incoming_count[tgt] = incoming_count.get(tgt, 0) + 1`,
`incoming_count.setdefault(src, 0)`. -/
def connStep (m : List (Nat × Nat) × List (Nat × Nat)) (c : Nat × Nat) :
    List (Nat × Nat) × List (Nat × Nat) :=
  (dset m.1 c.1 c.2,
   dsetdefault (dset m.2 c.2 ((dget m.2 c.2).getD 0 + 1)) c.1 0)

/-- The loop over `self.connections` building `outgoing` and
`incoming_count` (lines 790-795). -/
def buildMaps (blocks : List Nat) (conns : List (Nat × Nat)) :
    List (Nat × Nat) × List (Nat × Nat) :=
  conns.foldl connStep ([], initIncoming blocks)

/-- The inner `walk` closure (lines 800-804):
`while block and block not in visited: visited.append(block); block = outgoing.get(block)`.
The `fuel` argument makes the while-loop structurally recursive; fuel
sufficiency (the loop really terminates) is proved below. -/
def walk (out : List (Nat × Nat)) : Nat → Option Nat → List Nat → List Nat
  | 0, _, visited => visited
  | _ + 1, none, visited => visited
  | fuel + 1, some b, visited =>
    if b ∈ visited then visited
    else walk out fuel (dget out b) (visited ++ [b])

/-- `ordered_blocks` at the level of block identities, with explicit fuel
for the chain walks. -/
def orderedIdsWith (fuel : Nat) (blocks : List Nat) (conns : List (Nat × Nat)) :
    List Nat :=
  if blocks = [] then []
  else
    let maps := buildMaps blocks conns
    let out := maps.1
    let inc := maps.2
    let starts := (inc.filter (fun p =>
      decide (p.2 = 0) && out.any (fun q => decide (q.1 = p.1)))).map Prod.fst
    let visited :=
      if starts = [] then blocks
      else starts.foldl (fun v st => walk out fuel (some st) v) []
    blocks.foldl (fun v b => if b ∈ v then v else v ++ [b]) visited

/-- Default fuel: strictly more than any walk can ever append. -/
def ordered_ids (blocks : List Nat) (conns : List (Nat × Nat)) : List Nat :=
  orderedIdsWith (blocks.length + conns.length + 1) blocks conns

/-- `WorkflowEditor.ordered_blocks`: the identity walk mapped back to the
placed block objects. -/
def ordered_blocks (s : EditorState) : List CanvasBlock :=
  (ordered_ids (s.canvas_blocks.map CanvasBlock.id) s.connections).filterMap
    (fun i => s.canvas_blocks.find? (fun b => decide (b.id = i)))

/-- One iteration of the loop in `build_command_string` (lines 820-827):
skip blocks with an empty command template, and append the space-joined
non-empty parts when that yields a non-empty segment. -/
def segmentStep (eu : String → String) (segs : List String) (block : CanvasBlock) :
    List String :=
  if block.command = "" then segs
  else
    let parts := block.command :: flag_arguments eu block.flag_widgets
    let segment := pyJoin " " (parts.filter (fun p => decide (p ≠ "")))
    if segment = "" then segs else segs ++ [segment]

/-- `WorkflowEditor.build_command_string` (lines 817-828). -/
def build_command_string (eu : String → String) (s : EditorState) : String :=
  pyJoin " | " ((ordered_blocks s).foldl (segmentStep eu) [])

/-! ## Connection management (lines 595-699) -/

/-- `WorkflowEditor.add_connection` restricted to the `connections` list:
no-op on self-loops and on already-present edges, otherwise remove the
source's outgoing and the target's incoming connections and append. -/
def add_connection (conns : List (Nat × Nat)) (source target : Nat) :
    List (Nat × Nat) :=
  if source = target then conns
  else if conns.any (fun c => decide (c.1 = source) && decide (c.2 = target)) then conns
  else ((conns.filter (fun c => decide (c.1 ≠ source))).filter
          (fun c => decide (c.2 ≠ target))) ++ [(source, target)]

/-- Connection lists reachable through the editor's operations: the initial
empty list, `add_connection`, and the removal operations
(`remove_connections_involving`, `disconnect_selected_blocks`,
`delete_selected_connections`), each of which deletes a subset of the list
keeping the order of the rest. -/
inductive ReachableConns : List (Nat × Nat) → Prop
  | nil : ReachableConns []
  | add (s t : Nat) {c : List (Nat × Nat)} :
      ReachableConns c → ReachableConns (add_connection c s t)
  | remove {c c' : List (Nat × Nat)} :
      List.Sublist c' c → ReachableConns c → ReachableConns c'

/-- The chain-topology invariant: no block id occurs twice as a source, and
none occurs twice as a target. -/
def ChainInv (conns : List (Nat × Nat)) : Prop :=
  (conns.map Prod.fst).Nodup ∧ (conns.map Prod.snd).Nodup

/-! ## Flag-argument characterisation (claim C2) -/

/-- Characterisation of the argument a single flag widget contributes,
following the amended claim: nothing unless the checkbox widget exists and
is checked and the long option is non-empty; a value-taking flag further
needs text with non-empty strip, and contributes the option followed by the
shell-quoted, tilde-expanded, stripped text; a non-value flag contributes
just the option. -/
def flagContributionSpec (eu : String → String) (w : FlagWidget) : Option String :=
  if w.flag.long_option = "" then none
  else
    match w.checkbox with
    | none => none
    | some checked =>
      if ¬checked then none
      else if w.flag.takes_value then
        match w.value_text with
        | none => none
        | some txt =>
          if pyStrip txt = "" then none
          else some (w.flag.long_option ++ " " ++ shlexQuote (eu (pyStrip txt)))
      else some w.flag.long_option

theorem flagArgStep_eq (eu : String → String) (args : List String) (w : FlagWidget) :
    flagArgStep eu args w = args ++ (flagContributionSpec eu w).toList := by
  obtain ⟨f, cb, vt⟩ := w
  cases cb with
  | none =>
    cases vt <;> simp only [flagArgStep, flagContributionSpec] <;>
      split_ifs <;> simp
  | some checked =>
    cases vt <;> cases checked <;> simp only [flagArgStep, flagContributionSpec] <;>
      split_ifs <;> simp

theorem foldl_flagArgStep (eu : String → String) :
    ∀ (ws : List FlagWidget) (acc : List String),
      ws.foldl (flagArgStep eu) acc = acc ++ ws.filterMap (flagContributionSpec eu)
  | [], acc => by simp
  | w :: ws, acc => by
    rw [List.foldl_cons, foldl_flagArgStep eu ws, flagArgStep_eq, List.filterMap_cons]
    cases h : flagContributionSpec eu w <;> simp [h]

theorem flag_arguments_eq (eu : String → String) (ws : List FlagWidget) :
    flag_arguments eu ws = ws.filterMap (flagContributionSpec eu) := by
  unfold flag_arguments
  rw [foldl_flagArgStep]
  simp

/-- **C2** (counterexample): an enabled value-taking flag with long option
`--opt` and text `a b` contributes `--opt 'a b'` (the value is shell
quoted), not `--opt a b` as the claim states.  `expanduser` is the
identity here because the text does not start with a tilde. -/
theorem c2_counterexample :
    flag_arguments (fun s => s)
        [{ flag := { key := "o", label := "o", long_option := "--opt" },
           checkbox := some true, value_text := some "a b" }]
      = ["--opt 'a b'"] ∧
    ("--opt 'a b'" : String) ≠ "--opt a b" := by
  decide

/-- **C2** (amended): a flag contributes an argument only if its checkbox
widget exists and is enabled; an enabled value-taking flag with empty (or
whitespace-only) text, or no line edit, contributes nothing; an enabled
value-taking flag with non-empty stripped text contributes
`<option> <Q>` where `Q` is the shell-quoted (`shlex.quote`) tilde-expanded
stripped text (equal to the text itself for shell-safe values such as
`foo`); an enabled non-value flag contributes just `<option>`; flags with
an empty long option contribute nothing. -/
theorem c2_flag_contribution (eu : String → String) (ws : List FlagWidget) :
    flag_arguments eu ws = ws.filterMap (flagContributionSpec eu) :=
  flag_arguments_eq eu ws

/-! ## `ensure_prefixed` (claim C9) -/

theorem string_data_append (a b : String) : (a ++ b).data = a.data ++ b.data := rfl

theorem pyStrip_empty : pyStrip "" = "" := rfl

/-- **C9** (counterexample): an option string that starts with a dash but
carries trailing whitespace is not kept unchanged: the stored option is its
stripped form. -/
theorem c9_counterexample :
    ensure_prefixed (some "-x ") "--" = "-x" ∧ ("-x" : String) ≠ "-x " := by
  decide

theorem ensure_prefixed_of_strip_empty (s pre : String) (h : pyStrip s = "") :
    ensure_prefixed (some s) pre = "" := by
  by_cases hs : s = ""
  · subst hs; rfl
  · simp [ensure_prefixed, hs, h]

/-- **C9** (amended): the stored option is computed from the
whitespace-stripped option string: a `None` or empty or whitespace-only
option becomes the empty string; a stripped option that starts with a dash
is stored as the stripped string (not necessarily the original string);
otherwise the prefix (`--` for long, `-` for short) is prepended to the
stripped string; every non-empty stored option starts with a dash. -/
theorem c9_ensure_prefixed (pre : String) :
    (ensure_prefixed none pre = "") ∧
    (∀ s : String, pyStrip s = "" → ensure_prefixed (some s) pre = "") ∧
    (∀ s : String, pyStrip s ≠ "" → pyStartsWith (pyStrip s) "-" = true →
        ensure_prefixed (some s) pre = pyStrip s) ∧
    (∀ s : String, pyStrip s ≠ "" → pyStartsWith (pyStrip s) "-" = false →
        ensure_prefixed (some s) pre = pre ++ pyStrip s) ∧
    (∀ s : String, (pre = "--" ∨ pre = "-") →
        ensure_prefixed (some s) pre ≠ "" →
        pyStartsWith (ensure_prefixed (some s) pre) "-" = true) := by
  refine ⟨rfl, fun s hs => ensure_prefixed_of_strip_empty s pre hs, ?_, ?_, ?_⟩
  · intro s hs hdash
    unfold ensure_prefixed
    have hne : s ≠ "" := by
      intro h; rw [h, pyStrip_empty] at hs; exact hs rfl
    simp only [if_neg hne, if_neg hs, hdash, if_pos rfl]
    simp [hdash]
  · intro s hs hdash
    have hne : s ≠ "" := by
      intro h; rw [h, pyStrip_empty] at hs; exact hs rfl
    unfold ensure_prefixed
    simp [hne, hs, hdash]
  · intro s hpre hne
    by_cases hse : s = ""
    · subst hse; exact absurd rfl hne
    by_cases hstrip : pyStrip s = ""
    · exact absurd (ensure_prefixed_of_strip_empty s pre hstrip) hne
    by_cases hdash : pyStartsWith (pyStrip s) "-" = true
    · unfold ensure_prefixed
      simp [hse, hstrip, hdash]
    · have h4 : ensure_prefixed (some s) pre = pre ++ pyStrip s := by
        unfold ensure_prefixed
        simp [hse, hstrip, Bool.eq_false_iff.mpr hdash]
      rw [h4]
      rcases hpre with h | h <;> subst h <;>
        simp [pyStartsWith, string_data_append, List.isPrefixOf]

/-- **C9** (witness for the amended theorem). -/
theorem c9_ensure_prefixed_witness :
    (ensure_prefixed none "--" = "") ∧
    (ensure_prefixed (some "  ") "--" = "") ∧
    (ensure_prefixed (some " -x ") "--" = pyStrip " -x ") ∧
    (ensure_prefixed (some " v ") "--" = "--" ++ pyStrip " v ") ∧
    (pyStartsWith (ensure_prefixed (some "v") "--") "-" = true) :=
  ⟨(c9_ensure_prefixed "--").1,
   (c9_ensure_prefixed "--").2.1 "  " (by decide),
   (c9_ensure_prefixed "--").2.2.1 " -x " (by decide) (by decide),
   (c9_ensure_prefixed "--").2.2.2.1 " v " (by decide) (by decide),
   (c9_ensure_prefixed "--").2.2.2.2 "v" (Or.inl rfl) (by decide)⟩

/-! ## Chain topology invariant (claim C3) -/

theorem chainInv_nil : ChainInv [] := ⟨List.nodup_nil, List.nodup_nil⟩

theorem chainInv_sublist {c c' : List (Nat × Nat)} (h : List.Sublist c' c)
    (hc : ChainInv c) : ChainInv c' :=
  ⟨List.Nodup.sublist (List.Sublist.map Prod.fst h) hc.1,
   List.Nodup.sublist (List.Sublist.map Prod.snd h) hc.2⟩

theorem chainInv_add (c : List (Nat × Nat)) (s t : Nat) (hc : ChainInv c) :
    ChainInv (add_connection c s t) := by
  unfold add_connection
  split_ifs with h1 h2
  · exact hc
  · exact hc
  · constructor
    · rw [List.map_append]
      refine List.nodup_append.mpr ⟨?_, by simp, ?_⟩
      · exact List.Nodup.sublist
          (List.Sublist.map _ ((List.filter_sublist _).trans (List.filter_sublist _)))
          hc.1
      · intro a ha hb
        simp only [List.map_cons, List.map_nil, List.mem_singleton] at hb
        subst hb
        obtain ⟨x, hx, hfst⟩ := List.mem_map.mp ha
        have hx1 := (List.mem_filter.mp hx).1
        have hx2 := (List.mem_filter.mp hx1).2
        simp only [decide_eq_true_eq] at hx2
        exact hx2 hfst
    · rw [List.map_append]
      refine List.nodup_append.mpr ⟨?_, by simp, ?_⟩
      · exact List.Nodup.sublist
          (List.Sublist.map _ ((List.filter_sublist _).trans (List.filter_sublist _)))
          hc.2
      · intro a ha hb
        simp only [List.map_cons, List.map_nil, List.mem_singleton] at hb
        subst hb
        obtain ⟨x, hx, hsnd⟩ := List.mem_map.mp ha
        have hx2 := (List.mem_filter.mp hx).2
        simp only [decide_eq_true_eq] at hx2
        exact hx2 hsnd

/-- **C3**: in every reachable connection list each block id occurs at most
once as a source and at most once as a target (chain topology), and
`add_connection` preserves the invariant (it removes the source's existing
outgoing and the target's existing incoming connection before inserting). -/
theorem c3_chain_topology_invariant :
    (∀ c : List (Nat × Nat), ReachableConns c → ChainInv c) ∧
    (∀ (c : List (Nat × Nat)) (s t : Nat), ChainInv c → ChainInv (add_connection c s t)) := by
  constructor
  · intro c h
    induction h with
    | nil => exact chainInv_nil
    | add s t _ ih => exact chainInv_add _ s t ih
    | remove hsub _ ih => exact chainInv_sublist hsub ih
  · intro c s t hc
    exact chainInv_add c s t hc

/-- **C3** (witness): a concrete reachable state, and a concrete
application of the preservation statement. -/
theorem c3_chain_topology_invariant_witness :
    ChainInv (add_connection (add_connection [] 1 2) 2 3) ∧
    ChainInv (add_connection [(1, 2)] 1 3) :=
  ⟨c3_chain_topology_invariant.1 _
      (ReachableConns.add 2 3 (ReachableConns.add 1 2 ReachableConns.nil)),
   c3_chain_topology_invariant.2 [(1, 2)] 1 3 ⟨by decide, by decide⟩⟩

/-! ## Segment characterisation and empty results (claim C7) -/

theorem string_eq_empty_iff (s : String) : s = "" ↔ s.data = [] :=
  ⟨fun h => by rw [h], fun h => String.ext h⟩

theorem string_append_ne_empty (a b : String) (ha : a ≠ "") : a ++ b ≠ "" := by
  intro h
  rw [string_eq_empty_iff, string_data_append, List.append_eq_nil] at h
  exact ha (String.ext h.1)

theorem pyJoin_cons_ne_empty (sep x : String) (l : List String) (hx : x ≠ "") :
    pyJoin sep (x :: l) ≠ "" := by
  cases l with
  | nil => exact hx
  | cons y rest =>
    simp only [pyJoin]
    exact string_append_ne_empty (x ++ sep) (pyJoin sep (y :: rest))
      (string_append_ne_empty x sep hx)

/-- The segment a block contributes: its command followed by the non-empty
flag arguments, joined by spaces. -/
def blockSegment (eu : String → String) (b : CanvasBlock) : String :=
  pyJoin " " ((b.command :: flag_arguments eu b.flag_widgets).filter
    (fun p => decide (p ≠ "")))

theorem segmentStep_eq (eu : String → String) (segs : List String) (b : CanvasBlock) :
    segmentStep eu segs b =
      if b.command = "" then segs else segs ++ [blockSegment eu b] := by
  unfold segmentStep blockSegment
  by_cases hc : b.command = ""
  · simp [hc]
  · have hfil : (b.command :: flag_arguments eu b.flag_widgets).filter
        (fun p => decide (p ≠ "")) =
        b.command :: (flag_arguments eu b.flag_widgets).filter (fun p => decide (p ≠ "")) :=
      List.filter_cons_of_pos (by simpa using hc)
    have hne := pyJoin_cons_ne_empty " " b.command
      ((flag_arguments eu b.flag_widgets).filter (fun p => decide (p ≠ ""))) hc
    simp only [if_neg hc, hfil, if_neg hne]

theorem foldl_segmentStep (eu : String → String) :
    ∀ (bs : List CanvasBlock) (acc : List String),
      bs.foldl (segmentStep eu) acc =
        acc ++ (bs.filter (fun b => decide (b.command ≠ ""))).map (blockSegment eu)
  | [], acc => by simp
  | b :: bs, acc => by
    rw [List.foldl_cons, foldl_segmentStep eu bs, segmentStep_eq]
    by_cases hc : b.command = "" <;> simp [hc]

theorem build_command_string_eq (eu : String → String) (s : EditorState) :
    build_command_string eu s =
      pyJoin " | " (((ordered_blocks s).filter
        (fun b => decide (b.command ≠ ""))).map (blockSegment eu)) := by
  unfold build_command_string
  rw [foldl_segmentStep]
  simp

theorem mem_ordered_blocks (s : EditorState) (b : CanvasBlock)
    (h : b ∈ ordered_blocks s) : b ∈ s.canvas_blocks := by
  unfold ordered_blocks at h
  obtain ⟨i, _, hfind⟩ := List.mem_filterMap.mp h
  exact List.mem_of_find?_eq_some hfind

theorem ordered_blocks_of_no_blocks (s : EditorState) (h : s.canvas_blocks = []) :
    ordered_blocks s = [] := by
  unfold ordered_blocks ordered_ids orderedIdsWith
  rw [h]
  simp

/-- **C7**: `build_command_string` (a total function in this model, so it
raises nothing) returns the empty string when there are no placed blocks or
when no placed block has a non-empty command template, and in general it is
the pipe-join of the segments of exactly those ordered blocks whose command
template is non-empty — blocks with an empty command contribute no
segment. -/
theorem c7_build_command_empty (eu : String → String) (s : EditorState) :
    (s.canvas_blocks = [] → build_command_string eu s = "") ∧
    ((∀ b ∈ s.canvas_blocks, b.command = "") → build_command_string eu s = "") ∧
    build_command_string eu s =
      pyJoin " | " (((ordered_blocks s).filter
        (fun b => decide (b.command ≠ ""))).map (blockSegment eu)) := by
  refine ⟨?_, ?_, build_command_string_eq eu s⟩
  · intro h
    rw [build_command_string_eq, ordered_blocks_of_no_blocks s h]
    rfl
  · intro h
    rw [build_command_string_eq]
    have hfil : (ordered_blocks s).filter (fun b => decide (b.command ≠ "")) = [] := by
      rw [List.filter_eq_nil_iff]
      intro b hb
      simp [h b (mem_ordered_blocks s b hb)]
    rw [hfil]
    rfl

/-- **C7** (witness). -/
theorem c7_build_command_empty_witness :
    build_command_string (fun s => s) ⟨[], [(1, 2)]⟩ = "" ∧
    build_command_string (fun s => s) ⟨[⟨1, "", []⟩, ⟨2, "", []⟩], [(1, 2)]⟩ = "" :=
  ⟨(c7_build_command_empty (fun s => s) ⟨[], [(1, 2)]⟩).1 rfl,
   (c7_build_command_empty (fun s => s) ⟨[⟨1, "", []⟩, ⟨2, "", []⟩], [(1, 2)]⟩).2.1
     (by decide)⟩

/-! ## Linear chain assembly (claim C1) -/

theorem flag_arguments_unchecked (eu : String → String) (ws : List FlagWidget)
    (h : ∀ w ∈ ws, w.checkbox ≠ some true) : flag_arguments eu ws = [] := by
  rw [flag_arguments_eq, List.filterMap_eq_nil_iff]
  intro w hw
  unfold flagContributionSpec
  cases hcb : w.checkbox with
  | none => simp
  | some checked =>
    cases checked
    · simp
    · exact absurd hcb (h w hw)

theorem walk_succ_some (out : List (Nat × Nat)) (fuel : Nat) (b : Nat) (v : List Nat) :
    walk out (fuel + 1) (some b) v =
      if b ∈ v then v else walk out fuel (dget out b) (v ++ [b]) := rfl

theorem walk_succ_none (out : List (Nat × Nat)) (fuel : Nat) (v : List Nat) :
    walk out (fuel + 1) none v = v := rfl

theorem ordered_ids_chain3 (a b c : Nat) (hab : a ≠ b) (hac : a ≠ c) (hbc : b ≠ c) :
    ordered_ids [a, b, c] [(a, b), (b, c)] = [a, b, c] := by
  have hba := Ne.symm hab
  have hca := Ne.symm hac
  have hcb := Ne.symm hbc
  have hinit : initIncoming [a, b, c] = [(a, 0), (b, 0), (c, 0)] := by
    simp [initIncoming, dset, hab, hac, hbc, hba, hca, hcb]
  have hmaps : buildMaps [a, b, c] [(a, b), (b, c)] =
      ([(a, b), (b, c)], [(a, 0), (b, 1), (c, 1)]) := by
    simp [buildMaps, connStep, hinit, dset, dget, dsetdefault, hab, hac, hbc, hba, hca, hcb]
  have houta : dget [(a, b), (b, c)] a = some b := by simp [dget]
  have houtb : dget [(a, b), (b, c)] b = some c := by simp [dget, hab, hba]
  have houtc : dget [(a, b), (b, c)] c = none := by simp [dget, hac, hbc, hca, hcb]
  have hwalk : walk [(a, b), (b, c)] 6 (some a) [] = [a, b, c] := by
    rw [show (6 : Nat) = 5 + 1 from rfl, walk_succ_some,
      if_neg (List.not_mem_nil a), houta, List.nil_append]
    rw [show (5 : Nat) = 4 + 1 from rfl, walk_succ_some,
      if_neg (by simp [hba]), houtb]
    simp only [List.cons_append, List.nil_append]
    rw [show (4 : Nat) = 3 + 1 from rfl, walk_succ_some,
      if_neg (by simp [hca, hcb]), houtc]
    simp only [List.cons_append, List.nil_append]
    rw [show (3 : Nat) = 2 + 1 from rfl, walk_succ_none]
  show orderedIdsWith 6 [a, b, c] [(a, b), (b, c)] = [a, b, c]
  rw [orderedIdsWith]
  rw [if_neg (by simp : ¬([a, b, c] : List Nat) = [])]
  simp only [hmaps]
  simp only [List.filter_cons, List.filter_nil, List.any_cons, List.any_nil,
    decide_eq_true_eq]
  simp only [hab, hac, hbc, hba, hca, hcb]
  simp [hwalk, List.foldl_cons, List.foldl_nil]

/-- **C1**: for three placed blocks A, B, C with non-empty command
templates, connected as a linear chain A→B→C, with every flag checkbox
unchecked, `build_command_string` returns exactly
`<A.command> | <B.command> | <C.command>`. -/
theorem c1_linear_chain (eu : String → String) (a b c : Nat) (ca cb cc : String)
    (fa fb fc : List FlagWidget)
    (hab : a ≠ b) (hac : a ≠ c) (hbc : b ≠ c)
    (hca : ca ≠ "") (hcb : cb ≠ "") (hcc : cc ≠ "")
    (hfa : ∀ w ∈ fa, w.checkbox ≠ some true)
    (hfb : ∀ w ∈ fb, w.checkbox ≠ some true)
    (hfc : ∀ w ∈ fc, w.checkbox ≠ some true) :
    build_command_string eu
        ⟨[⟨a, ca, fa⟩, ⟨b, cb, fb⟩, ⟨c, cc, fc⟩], [(a, b), (b, c)]⟩
      = ca ++ " | " ++ cb ++ " | " ++ cc := by
  have hba := Ne.symm hab
  have hca' := Ne.symm hac
  have hcb' := Ne.symm hbc
  rw [build_command_string_eq]
  have hord : ordered_blocks ⟨[⟨a, ca, fa⟩, ⟨b, cb, fb⟩, ⟨c, cc, fc⟩], [(a, b), (b, c)]⟩
      = [⟨a, ca, fa⟩, ⟨b, cb, fb⟩, ⟨c, cc, fc⟩] := by
    show (ordered_ids [a, b, c] [(a, b), (b, c)]).filterMap _ = _
    rw [ordered_ids_chain3 a b c hab hac hbc]
    simp [List.find?, hab, hac, hbc, hba, hca', hcb']
  rw [hord]
  have h1 : flag_arguments eu fa = [] := flag_arguments_unchecked eu fa hfa
  have h2 : flag_arguments eu fb = [] := flag_arguments_unchecked eu fb hfb
  have h3 : flag_arguments eu fc = [] := flag_arguments_unchecked eu fc hfc
  simp [blockSegment, h1, h2, h3, hca, hcb, hcc, pyJoin, String.append_assoc]

/-- **C1** (witness). -/
theorem c1_linear_chain_witness :
    build_command_string (fun s => s)
        ⟨[⟨0, "x", []⟩, ⟨1, "y", []⟩, ⟨2, "z", []⟩], [(0, 1), (1, 2)]⟩
      = "x" ++ " | " ++ "y" ++ " | " ++ "z" :=
  c1_linear_chain (fun s => s) 0 1 2 "x" "y" "z" [] [] []
    (by decide) (by decide) (by decide) (by decide) (by decide) (by decide)
    (by simp) (by simp) (by simp)

/-! ## YAML value model and the catalog loader (lines 126-250)

YAML values as produced by `yaml.safe_load`, together with the Python
truthiness, `str()`, iteration and `dict.get` semantics the loader relies
on.  Failure modes that CPython would raise (`AttributeError` on `.get` of
a non-dict, `TypeError` on iterating a non-iterable, `AttributeError` on
`.strip()` of a truthy non-string) are modelled with `Except`. -/

inductive Yaml where
  | null
  | bool (b : Bool)
  | int (n : Int)
  | str (s : String)
  | list (items : List Yaml)
  | dict (entries : List (String × Yaml))

/-- Python truthiness of a YAML value. -/
def pyTruthy : Yaml → Bool
  | .null => false
  | .bool b => b
  | .int n => decide (n ≠ 0)
  | .str s => decide (s ≠ "")
  | .list xs => !xs.isEmpty
  | .dict kvs => !kvs.isEmpty

mutual
/-- Python `repr` of a YAML value.  String reprs are approximated without
escape handling; no claim depends on repr values (they can only reach
cosmetic fields such as labels via `str()` of container values). -/
def pyRepr : Yaml → String
  | .null => "None"
  | .bool true => "True"
  | .bool false => "False"
  | .int n => toString n
  | .str s => "'" ++ s ++ "'"
  | .list xs => "[" ++ pyReprItems xs ++ "]"
  | .dict kvs => "\x7b" ++ pyReprEntries kvs ++ "\x7d"

def pyReprItems : List Yaml → String
  | [] => ""
  | [x] => pyRepr x
  | x :: y :: rest => pyRepr x ++ ", " ++ pyReprItems (y :: rest)

def pyReprEntries : List (String × Yaml) → String
  | [] => ""
  | [(k, v)] => "'" ++ k ++ "': " ++ pyRepr v
  | (k, v) :: e :: rest => "'" ++ k ++ "': " ++ pyRepr v ++ ", " ++ pyReprEntries (e :: rest)
end

/-- Python `str()` of a YAML value. -/
def pyStr : Yaml → String
  | .str s => s
  | v => pyRepr v

/-- Python `dict.get(k)` on a parsed YAML mapping: duplicate YAML keys
overwrite, so the last binding wins. -/
def pyGet (kvs : List (String × Yaml)) (k : String) : Option Yaml :=
  (kvs.reverse.find? (fun p => decide (p.1 = k))).map Prod.snd

/-- Truthiness of a `dict.get` result (`None` for a missing key is falsy). -/
def truthyO : Option Yaml → Bool
  | none => false
  | some v => pyTruthy v

/-- Python `a or b` over `dict.get` results. -/
def pyOrY (a b : Option Yaml) : Option Yaml :=
  if truthyO a then a else b

/-- `first or fallback` followed by `str()`: the string the Python or-chain
produces from a `dict.get` result with a string fallback. -/
def pickStr (o : Option Yaml) (fallback : String) : String :=
  match o with
  | some v => if pyTruthy v then pyStr v else fallback
  | none => fallback

/-- Exceptions the loader can actually raise. -/
inductive PyErr where
  | attributeError
  | typeError
deriving DecidableEq

/-- `ensure_prefixed` applied to a raw `dict.get` result: a falsy value
yields `""` (the `if not option` guard), a truthy string is processed, and
a truthy non-string raises `AttributeError` from `.strip()`. -/
def ensure_prefixedY : Option Yaml → String → Except PyErr String
  | none, _ => .ok ""
  | some (.str s), pre => .ok (ensure_prefixed (some s) pre)
  | some v, _ => if pyTruthy v then .error .attributeError else .ok ""

/-- `parse_flag` (lines 126-160) on a YAML mapping. -/
def parse_flag (data : List (String × Yaml)) : Except PyErr BlockFlag :=
  match ensure_prefixedY (pyOrY (pyGet data "long") (pyGet data "name")) "--" with
  | .error e => .error e
  | .ok long_option =>
    match (if truthyO (pyGet data "short")
           then (ensure_prefixedY (pyGet data "short") "-").map some
           else .ok none) with
    | .error e => .error e
    | .ok short_option =>
      let key0 := pyStrip (pickStr (pyGet data "key")
        (pickStr (pyGet data "name")
          (if long_option ≠ "" then long_option
           else pickStr (pyGet data "short") "flag")))
      let key := if key0 = "" then "flag" else key0
      let label0 := pyStrip (pickStr (pyGet data "label") "")
      let label := if label0 = "" then
          (if long_option ≠ "" then long_option else key) else label0
      let takes_value := match pyGet data "takes_value" with
        | none => true
        | some v => pyTruthy v
      let raw_default := (pyGet data "default").getD
        (if takes_value then .str "" else .bool false)
      let default_value := if takes_value then
          (match raw_default with | .null => "" | v => pyStr v) else ""
      let default_checked := if takes_value then false else pyTruthy raw_default
      let placeholder0 := pyStrip (pyStr ((pyGet data "placeholder").getD (.str "")))
      let placeholder := if placeholder0 = "" then none else some placeholder0
      let description0 := pyStrip (pyStr ((pyGet data "description").getD (.str "")))
      let description := if description0 = "" then none else some description0
      .ok { key := key, label := label, long_option := long_option,
            short_option := short_option, default_value := default_value,
            takes_value := takes_value, default_checked := default_checked,
            placeholder := placeholder, description := description }

/-- One iteration of the flag loop in `load_block_definitions`
(lines 219-223): non-dict entries are skipped, and a parsed flag is kept
only when its long option is non-empty. -/
def keepFlag : Yaml → Except PyErr (Option BlockFlag)
  | .dict kvs =>
    match parse_flag kvs with
    | .error e => .error e
    | .ok f => .ok (if f.long_option ≠ "" then some f else none)
  | _ => .ok none

/-- The flag loop over a raw YAML flag list. -/
def parse_flags_entries : List Yaml → Except PyErr (List BlockFlag)
  | [] => .ok []
  | e :: rest =>
    match keepFlag e with
    | .error er => .error er
    | .ok none => parse_flags_entries rest
    | .ok (some f) =>
      match parse_flags_entries rest with
      | .error er => .error er
      | .ok fs => .ok (f :: fs)

/-- The body of the entry loop in `load_block_definitions`
(lines 198-236) for one dict entry, given the number of definitions
collected so far. -/
def mkDefinition (entry : List (String × Yaml)) (ndefs : Nat) :
    Except PyErr BlockDefinition :=
  let identifier0 := pyStrip (pickStr (pyGet entry "id")
    (pickStr (pyGet entry "name")
      (pickStr (pyGet entry "command") ("block_" ++ toString (ndefs + 1)))))
  let identifier := if identifier0 = "" then "block_" ++ toString (ndefs + 1)
    else identifier0
  let title := pyStrip (pickStr (pyGet entry "title") identifier)
  let command := pyStrip (pickStr (pyGet entry "command") identifier)
  let inputT := pyStr ((pyGet entry "input").getD (.str "any"))
  let outputT := pyStr ((pyGet entry "output").getD (.str "any"))
  let color := pyStr ((pyGet entry "color").getD (.str "gray"))
  let include_in_bootstrap := match pyGet entry "include_in_bootstrap" with
    | none => true
    | some v => pyTruthy v
  let raw_flags := (pyGet entry "flags").getD (.list [])
  match (match raw_flags with
         | .list xs => parse_flags_entries xs
         | _ => .ok []) with
  | .error e => .error e
  | .ok flags =>
    .ok { identifier := identifier, title := title, command := command,
          input := inputT, output := outputT, color := color,
          include_in_bootstrap := include_in_bootstrap, flags := flags }

/-- The entry loop of `load_block_definitions`: non-dict entries are
skipped (`continue`), dict entries are appended. -/
def processEntries : List Yaml → List BlockDefinition → Except PyErr (List BlockDefinition)
  | [], acc => .ok acc
  | e :: rest, acc =>
    match e with
    | .dict kvs =>
      match mkDefinition kvs acc.length with
      | .error er => .error er
      | .ok d => processEntries rest (acc ++ [d])
    | _ => processEntries rest acc

/-- Python iteration (`for entry in blocks_data`): lists yield their items,
strings their characters, dicts their keys; other values raise
`TypeError`. -/
def pyIter : Yaml → Option (List Yaml)
  | .list xs => some xs
  | .str s => some (s.data.map (fun ch => .str (String.mk [ch])))
  | .dict kvs => some (kvs.map (fun p => .str p.1))
  | _ => none

/-- The observable outcome of opening and `yaml.safe_load`-ing the catalog
file: the file is missing, reading or parsing raised
(`OSError` or `yaml.YAMLError`), or parsing produced a YAML value. -/
inductive LoadInput where
  | missing
  | readError
  | parsed (value : Yaml)

/-- The synthetic fallback block (lines 171-179, 186-194, 242-250). -/
def fallback_definition : BlockDefinition :=
  { identifier := "default", title := "Default Block",
    command := "echo 'default block'", color := "gray",
    include_in_bootstrap := true }

/-- `load_block_definitions` (lines 163-250). -/
def load_block_definitions : LoadInput → Except PyErr (List BlockDefinition)
  | .missing => .ok [fallback_definition]
  | .readError => .ok [fallback_definition]
  | .parsed v =>
    let raw := if pyTruthy v then v else .dict []
    match raw with
    | .dict kvs =>
      let blocks_data := (pyGet kvs "blocks").getD (.list [])
      match pyIter blocks_data with
      | none => .error .typeError
      | some entries =>
        match processEntries entries [] with
        | .error e => .error e
        | .ok defs => .ok (if defs = [] then [fallback_definition] else defs)
    | _ => .error .attributeError

/-! ## Loader claims (C6, C8, C10) -/

/-- **C6**: the fallback paths behave as the claim states — a missing file,
a read or YAML parse error, and a catalog with zero usable block entries
all yield exactly the single synthetic fallback definition (identifier
`default`, an echo command).  But the "never raising an error to the
caller" part fails: when the YAML file's top level parses to a truthy
non-mapping (for example the file `- 1`, a non-empty list),
`raw.get("blocks", [])` raises `AttributeError`, which propagates to the
caller — contradicting both the spec and the function's own docstring
("On failure a single fallback block is returned so the UI stays
operable"), so this is a code bug. -/
theorem c6_load_fallback_and_crash :
    load_block_definitions .missing = .ok [fallback_definition] ∧
    load_block_definitions .readError = .ok [fallback_definition] ∧
    load_block_definitions (.parsed (.dict [("blocks", .list [.str "x"])]))
      = .ok [fallback_definition] ∧
    load_block_definitions (.parsed .null) = .ok [fallback_definition] ∧
    load_block_definitions (.parsed (.list [.int 1])) = .error .attributeError :=
  ⟨rfl, rfl, rfl, rfl, rfl⟩

theorem keepFlag_optionless (kvs : List (String × Yaml))
    (hl : pyGet kvs "long" = none) (hn : pyGet kvs "name" = none)
    (hs : pyGet kvs "short" = none) :
    keepFlag (.dict kvs) = .ok none := by
  simp only [keepFlag, parse_flag]
  rw [hl, hn, hs]
  simp [pyOrY, truthyO, ensure_prefixedY]

/-- **C8**: a flag entry that is not a dictionary, or a dictionary carrying
none of the option keys (`long`, its alias `name`, and `short`), is
silently excluded: deleting it from the raw flag list does not change the
parsed flag list. -/
theorem c8_flag_entry_excluded (pre post : List Yaml) (e : Yaml)
    (h : (∀ kvs, e ≠ .dict kvs) ∨
      (∃ kvs, e = .dict kvs ∧ pyGet kvs "long" = none ∧ pyGet kvs "name" = none ∧
        pyGet kvs "short" = none)) :
    parse_flags_entries (pre ++ e :: post) = parse_flags_entries (pre ++ post) := by
  have hkeep : keepFlag e = .ok none := by
    rcases h with h | ⟨kvs, rfl, hl, hn, hs⟩
    · cases e with
      | dict kvs => exact absurd rfl (h kvs)
      | null => rfl
      | bool b => rfl
      | int n => rfl
      | str s => rfl
      | list xs => rfl
    · exact keepFlag_optionless kvs hl hn hs
  induction pre with
  | nil =>
    simp only [List.nil_append, parse_flags_entries, hkeep]
  | cons p pre ih =>
    simp only [List.cons_append, parse_flags_entries]
    cases keepFlag p with
    | error er => rfl
    | ok o =>
      cases o with
      | none => simpa using ih
      | some f =>
        simp only [List.append_eq]
        rw [ih]

/-- **C8** (witness): a non-dict entry and an option-less dict entry are
both dropped. -/
theorem c8_flag_entry_excluded_witness :
    parse_flags_entries [.int 3] = parse_flags_entries [] ∧
    parse_flags_entries [.dict [("label", .str "x")]] = parse_flags_entries [] :=
  ⟨c8_flag_entry_excluded [] [] (.int 3) (Or.inl (fun _ h => Yaml.noConfusion h)),
   c8_flag_entry_excluded [] [] (.dict [("label", .str "x")])
     (Or.inr ⟨[("label", .str "x")], rfl, rfl, rfl, rfl⟩)⟩

theorem ensure_prefixedY_of_falsy (o : Option Yaml) (pre : String)
    (h : truthyO o = false) : ensure_prefixedY o pre = .ok "" := by
  cases o with
  | none => rfl
  | some v =>
    cases v with
    | null => rfl
    | bool b =>
      have hb : b = false := by simpa [truthyO, pyTruthy] using h
      subst hb; rfl
    | int n =>
      have hn : n = 0 := by simpa [truthyO, pyTruthy] using h
      subst hn; rfl
    | str s =>
      have hs : s = "" := by simpa [truthyO, pyTruthy] using h
      subst hs; rfl
    | list xs =>
      cases xs with
      | nil => rfl
      | cons a l => simp [truthyO, pyTruthy, List.isEmpty] at h
    | dict kvs =>
      cases kvs with
      | nil => rfl
      | cons a l => simp [truthyO, pyTruthy, List.isEmpty] at h

theorem keepFlag_no_long (kvs : List (String × Yaml))
    (hl : truthyO (pyGet kvs "long") = false)
    (hn : truthyO (pyGet kvs "name") = false)
    (hs : ∀ v, pyGet kvs "short" = some v → pyTruthy v = true → ∃ s, v = .str s) :
    keepFlag (.dict kvs) = .ok none := by
  have hlong : ensure_prefixedY (pyOrY (pyGet kvs "long") (pyGet kvs "name")) "--"
      = .ok "" := by
    rw [pyOrY, if_neg (by simp [hl])]
    exact ensure_prefixedY_of_falsy _ _ hn
  have hshort : ∃ o : Option String,
      (if truthyO (pyGet kvs "short") = true
       then Except.map some (ensure_prefixedY (pyGet kvs "short") "-")
       else (.ok none : Except PyErr (Option String))) = .ok o := by
    by_cases ht : truthyO (pyGet kvs "short") = true
    · cases hg : pyGet kvs "short" with
      | none => rw [hg] at ht; simp [truthyO] at ht
      | some v =>
        have htr : pyTruthy v = true := by
          rw [hg] at ht; simpa [truthyO] using ht
        obtain ⟨s, rfl⟩ := hs v hg htr
        refine ⟨some (ensure_prefixed (some s) "-"), ?_⟩
        simp [truthyO, htr, ensure_prefixedY, Except.map]
    · exact ⟨none, by rw [if_neg ht]⟩
  obtain ⟨o, ho⟩ := hshort
  simp only [keepFlag, parse_flag]
  rw [hlong, ho]
  simp

/-- The editor state transformation "replace every flag's short option":
used to state that the assembled arguments never depend on short
options. -/
def setShort (o : Option String) (w : FlagWidget) : FlagWidget :=
  { w with flag := { w.flag with short_option := o } }

theorem flagContributionSpec_setShort (eu : String → String) (o : Option String)
    (w : FlagWidget) :
    flagContributionSpec eu (setShort o w) = flagContributionSpec eu w := rfl

theorem flag_arguments_setShort (eu : String → String) (o : Option String)
    (ws : List FlagWidget) :
    flag_arguments eu (ws.map (setShort o)) = flag_arguments eu ws := by
  rw [flag_arguments_eq, flag_arguments_eq, List.filterMap_map]
  rfl

theorem flag_arguments_long_only (eu : String → String) (ws : List FlagWidget)
    (a : String) (ha : a ∈ flag_arguments eu ws) :
    ∃ w ∈ ws, a = w.flag.long_option ∨
      ∃ v, a = w.flag.long_option ++ " " ++ v := by
  rw [flag_arguments_eq] at ha
  obtain ⟨w, hw, hspec⟩ := List.mem_filterMap.mp ha
  refine ⟨w, hw, ?_⟩
  unfold flagContributionSpec at hspec
  by_cases hlong : w.flag.long_option = ""
  · rw [if_pos hlong] at hspec
    exact absurd hspec (by simp)
  rw [if_neg hlong] at hspec
  cases hcb : w.checkbox with
  | none => rw [hcb] at hspec; exact absurd hspec (by simp)
  | some checked =>
    rw [hcb] at hspec
    dsimp only at hspec
    by_cases hch : checked = true
    · rw [if_neg (not_not_intro hch)] at hspec
      by_cases htv : w.flag.takes_value = true
      · rw [if_pos htv] at hspec
        cases hvt : w.value_text with
        | none => rw [hvt] at hspec; exact absurd hspec (by simp)
        | some txt =>
          rw [hvt] at hspec
          dsimp only at hspec
          by_cases hstr : pyStrip txt = ""
          · rw [if_pos hstr] at hspec; exact absurd hspec (by simp)
          · rw [if_neg hstr] at hspec
            exact Or.inr ⟨shlexQuote (eu (pyStrip txt)), (Option.some.inj hspec).symm⟩
      · rw [if_neg htv] at hspec
        exact Or.inl (Option.some.inj hspec).symm
    · rw [if_pos hch] at hspec
      exact absurd hspec (by simp)

/-- **C10**: only a flag's long option can reach the assembled command:
a flag entry whose long-option or-chain (`long`, then `name`) is falsy is
dropped during parsing even when it carries a (string) short option, the
arguments `flag_arguments` emits are unchanged when every short option is
replaced, and every emitted argument is the emitting flag's long option,
alone or followed by a space and a value. -/
theorem c10_long_option_only :
    (∀ kvs : List (String × Yaml),
        truthyO (pyGet kvs "long") = false →
        truthyO (pyGet kvs "name") = false →
        (∀ v, pyGet kvs "short" = some v → pyTruthy v = true → ∃ s, v = .str s) →
        keepFlag (.dict kvs) = .ok none) ∧
    (∀ (eu : String → String) (o : Option String) (ws : List FlagWidget),
        flag_arguments eu (ws.map (setShort o)) = flag_arguments eu ws) ∧
    (∀ (eu : String → String) (ws : List FlagWidget) (a : String),
        a ∈ flag_arguments eu ws →
        ∃ w ∈ ws, a = w.flag.long_option ∨
          ∃ v, a = w.flag.long_option ++ " " ++ v) :=
  ⟨keepFlag_no_long, flag_arguments_setShort, flag_arguments_long_only⟩

/-- **C10** (witness): a flag entry with only a short option is dropped; a
concrete argument list ignores short options and exposes only the long
option. -/
theorem c10_long_option_only_witness :
    keepFlag (.dict [("short", .str "-s")]) = .ok none ∧
    flag_arguments (fun s => s)
        ([⟨{ key := "o", label := "o", long_option := "--opt",
             takes_value := false }, some true, none⟩].map (setShort (some "-z")))
      = flag_arguments (fun s => s)
        [⟨{ key := "o", label := "o", long_option := "--opt",
            takes_value := false }, some true, none⟩] ∧
    ∃ w ∈ [(⟨{ key := "o", label := "o", long_option := "--opt",
               takes_value := false }, some true, none⟩ : FlagWidget)],
      "--opt" = w.flag.long_option ∨
        ∃ v, "--opt" = w.flag.long_option ++ " " ++ v :=
  ⟨c10_long_option_only.1 [("short", .str "-s")] rfl rfl
      (fun v hv _ => ⟨"-s", (Option.some.inj hv).symm⟩),
   c10_long_option_only.2.1 (fun s => s) (some "-z") _,
   c10_long_option_only.2.2 (fun s => s) _ "--opt" (by decide)⟩

/-! ## Walk termination: fuel sufficiency (claim C5) -/

theorem length_filter_mono {α : Type} (l : List α) (p q : α → Bool)
    (hpq : ∀ x, p x = true → q x = true) :
    (l.filter p).length ≤ (l.filter q).length := by
  induction l with
  | nil => simp
  | cons a l ih =>
    by_cases hp : p a = true
    · rw [List.filter_cons_of_pos hp, List.filter_cons_of_pos (hpq a hp)]
      simpa using ih
    · rw [List.filter_cons_of_neg (by simpa using hp)]
      by_cases hq : q a = true
      · rw [List.filter_cons_of_pos hq]
        exact le_trans ih (by simp)
      · rw [List.filter_cons_of_neg (by simpa using hq)]
        exact ih

theorem length_filter_strict {α : Type} (l : List α) (p q : α → Bool)
    (hpq : ∀ x, p x = true → q x = true) (t : α) (ht : t ∈ l)
    (hqt : q t = true) (hpt : p t = false) :
    (l.filter p).length < (l.filter q).length := by
  induction l with
  | nil => cases ht
  | cons a l ih =>
    rcases List.mem_cons.mp ht with rfl | hmem
    · rw [List.filter_cons_of_neg (by simp [hpt]), List.filter_cons_of_pos hqt]
      simp only [List.length_cons]
      exact Nat.lt_succ_of_le (length_filter_mono l p q hpq)
    · by_cases hp : p a = true
      · rw [List.filter_cons_of_pos hp, List.filter_cons_of_pos (hpq a hp)]
        simpa using ih hmem
      · rw [List.filter_cons_of_neg (by simpa using hp)]
        by_cases hq : q a = true
        · rw [List.filter_cons_of_pos hq]
          exact Nat.lt_succ_of_lt (ih hmem)
        · rw [List.filter_cons_of_neg (by simpa using hq)]
          exact ih hmem

/-- Decreasing measure for the `walk` while-loop: the number of outgoing
targets not yet visited (plus one for the current block). -/
def walkBound (out : List (Nat × Nat)) (v : List Nat) : Option Nat → Nat
  | none => 0
  | some x =>
    if x ∈ v then 0
    else 1 + ((out.map Prod.snd).filter
        (fun t => decide (t ∉ v) && decide (t ≠ x))).length

theorem walkBound_none (out : List (Nat × Nat)) (v : List Nat) :
    walkBound out v none = 0 := rfl

theorem walkBound_some (out : List (Nat × Nat)) (v : List Nat) (x : Nat) :
    walkBound out v (some x) =
      if x ∈ v then 0
      else 1 + ((out.map Prod.snd).filter
          (fun t => decide (t ∉ v) && decide (t ≠ x))).length := rfl

theorem dget_mem_snd (d : List (Nat × Nat)) (k t : Nat) (h : dget d k = some t) :
    t ∈ d.map Prod.snd := by
  unfold dget at h
  obtain ⟨p, hp, ht⟩ := Option.map_eq_some'.mp h
  exact ht ▸ List.mem_map.mpr ⟨p, List.mem_of_find?_eq_some hp, rfl⟩

theorem walkBound_step (out : List (Nat × Nat)) (v : List Nat) (x : Nat)
    (hx : x ∉ v) :
    walkBound out (v ++ [x]) (dget out x) < walkBound out v (some x) := by
  rw [walkBound_some, if_neg hx]
  cases hg : dget out x with
  | none => rw [walkBound_none]; omega
  | some t =>
    rw [walkBound_some]
    by_cases hm : t ∈ v ++ [x]
    · rw [if_pos hm]; omega
    · rw [if_neg hm]
      have htmem : t ∈ out.map Prod.snd := dget_mem_snd out x t hg
      have htv : t ∉ v := fun h => hm (List.mem_append.mpr (Or.inl h))
      have htx : t ≠ x := fun h => hm (by simp [h])
      have hlt := length_filter_strict (out.map Prod.snd)
        (fun u => decide (u ∉ v ++ [x]) && decide (u ≠ t))
        (fun u => decide (u ∉ v) && decide (u ≠ x))
        (fun u hu => by
          simp only [Bool.and_eq_true, decide_eq_true_eq] at hu ⊢
          obtain ⟨h1, h2⟩ := hu
          exact ⟨fun hv => h1 (List.mem_append.mpr (Or.inl hv)),
                 fun he => h1 (by simp [he])⟩)
        t htmem
        (by simp only [Bool.and_eq_true, decide_eq_true_eq]; exact ⟨htv, htx⟩)
        (by simp)
      omega

theorem walk_fuel_congr (out : List (Nat × Nat)) :
    ∀ (f g : Nat) (v : List Nat) (b : Option Nat),
      walkBound out v b ≤ f → walkBound out v b ≤ g →
      walk out f b v = walk out g b v := by
  intro f
  induction f with
  | zero =>
    intro g v b hf hg
    cases b with
    | none => cases g <;> rfl
    | some x =>
      have hx : x ∈ v := by
        by_contra hxx
        rw [walkBound_some, if_neg hxx] at hf
        omega
      cases g with
      | zero => rfl
      | succ g =>
        rw [walk_succ_some, if_pos hx]
        rfl
  | succ f ih =>
    intro g v b hf hg
    cases b with
    | none => cases g <;> rfl
    | some x =>
      by_cases hx : x ∈ v
      · cases g with
        | zero =>
          rw [walk_succ_some, if_pos hx]
          rfl
        | succ g => rw [walk_succ_some, if_pos hx, walk_succ_some, if_pos hx]
      · cases g with
        | zero =>
          rw [walkBound_some, if_neg hx] at hg
          omega
        | succ g =>
          rw [walk_succ_some, if_neg hx, walk_succ_some, if_neg hx]
          have hstep := walkBound_step out v x hx
          rw [walkBound_some, if_neg hx] at hf hg hstep
          exact ih g (v ++ [x]) (dget out x) (by omega) (by omega)

theorem walkBound_le (out : List (Nat × Nat)) (v : List Nat) (b : Option Nat) :
    walkBound out v b ≤ 1 + out.length := by
  cases b with
  | none => simp [walkBound]
  | some x =>
    rw [walkBound_some]
    split_ifs
    · omega
    · have h1 := List.length_filter_le
        (fun t => decide (t ∉ v) && decide (t ≠ x)) (out.map Prod.snd)
      rw [List.length_map] at h1
      omega

theorem dset_length_le (d : List (Nat × Nat)) (k v : Nat) :
    (dset d k v).length ≤ d.length + 1 := by
  unfold dset
  split_ifs <;> simp

theorem foldl_connStep_out_length :
    ∀ (conns : List (Nat × Nat)) (m : List (Nat × Nat) × List (Nat × Nat)),
      (conns.foldl connStep m).1.length ≤ m.1.length + conns.length
  | [], m => by simp
  | c :: conns, m => by
    rw [List.foldl_cons]
    have h1 := foldl_connStep_out_length conns (connStep m c)
    have h2 : (connStep m c).1.length ≤ m.1.length + 1 := dset_length_le m.1 c.1 c.2
    simp only [List.length_cons]
    omega

theorem buildMaps_out_length (blocks : List Nat) (conns : List (Nat × Nat)) :
    (buildMaps blocks conns).1.length ≤ conns.length := by
  have := foldl_connStep_out_length conns ([], initIncoming blocks)
  simpa [buildMaps] using this

theorem foldl_walk_congr (out : List (Nat × Nat)) (f g : Nat)
    (hf : 1 + out.length ≤ f) (hg : 1 + out.length ≤ g) :
    ∀ (starts v : List Nat),
      starts.foldl (fun v st => walk out f (some st) v) v
        = starts.foldl (fun v st => walk out g (some st) v) v
  | [], v => rfl
  | st :: starts, v => by
    rw [List.foldl_cons, List.foldl_cons]
    have hw : walk out f (some st) v = walk out g (some st) v :=
      walk_fuel_congr out f g v (some st)
        (le_trans (walkBound_le out v (some st)) hf)
        (le_trans (walkBound_le out v (some st)) hg)
    rw [hw]
    exact foldl_walk_congr out f g hf hg starts _

/-- **C5**: the chain walk terminates on every connection set, cycles
included: the fuelled embedding of the while-loop is already stable at the
default fuel (adding any extra fuel `k` changes nothing, i.e. the loop has
exhausted itself), and on concrete cyclic editor states (a pure two-block
cycle, and a chain running into a cycle) `build_command_string` returns a
finite, deterministically ordered string. -/
theorem c5_cycle_terminates :
    (∀ (blocks : List Nat) (conns : List (Nat × Nat)) (k : Nat),
      orderedIdsWith (blocks.length + conns.length + 1 + k) blocks conns
        = ordered_ids blocks conns) ∧
    build_command_string (fun s => s)
        ⟨[⟨1, "a", []⟩, ⟨2, "b", []⟩], [(1, 2), (2, 1)]⟩ = "a | b" ∧
    build_command_string (fun s => s)
        ⟨[⟨1, "a", []⟩, ⟨2, "b", []⟩, ⟨3, "c", []⟩], [(1, 2), (2, 3), (3, 2)]⟩
      = "a | b | c" := by
  refine ⟨?_, by decide, by decide⟩
  intro blocks conns k
  unfold ordered_ids orderedIdsWith
  by_cases hb : blocks = []
  · rw [if_pos hb, if_pos hb]
  · rw [if_neg hb, if_neg hb]
    dsimp only
    by_cases hst : ((buildMaps blocks conns).2.filter (fun p =>
        decide (p.2 = 0) &&
          (buildMaps blocks conns).1.any (fun q => decide (q.1 = p.1)))).map
            Prod.fst = []
    · rw [if_pos hst, if_pos hst]
    · rw [if_neg hst, if_neg hst]
      have hlen := buildMaps_out_length blocks conns
      rw [foldl_walk_congr (buildMaps blocks conns).1
        (blocks.length + conns.length + 1 + k) (blocks.length + conns.length + 1)
        (by omega) (by omega)]

/-! ## `ordered_blocks` is a permutation of the placed blocks (claim C4) -/

theorem mem_keys_dset_iff (d : List (Nat × Nat)) (k v x : Nat) :
    x ∈ (dset d k v).map Prod.fst ↔ x ∈ d.map Prod.fst ∨ x = k := by
  unfold dset
  split_ifs with h
  · rw [List.map_map]
    have hfun : (Prod.fst ∘ fun p : Nat × Nat => if p.1 = k then (k, v) else p)
        = Prod.fst := by
      funext p
      by_cases hp : p.1 = k
      · simp [hp]
      · simp [hp]
    rw [hfun]
    constructor
    · exact Or.inl
    · rintro (hx | rfl)
      · exact hx
      · simp only [List.any_eq_true, decide_eq_true_eq] at h
        obtain ⟨p, hp, hpk⟩ := h
        exact List.mem_map.mpr ⟨p, hp, hpk⟩
  · rw [List.map_append]
    simp

theorem mem_keys_dsetdefault_iff (d : List (Nat × Nat)) (k v x : Nat) :
    x ∈ (dsetdefault d k v).map Prod.fst ↔ x ∈ d.map Prod.fst ∨ x = k := by
  unfold dsetdefault
  split_ifs with h
  · constructor
    · exact Or.inl
    · rintro (hx | rfl)
      · exact hx
      · simp only [List.any_eq_true, decide_eq_true_eq] at h
        obtain ⟨p, hp, hpk⟩ := h
        exact List.mem_map.mpr ⟨p, hp, hpk⟩
  · rw [List.map_append]
    simp

theorem mem_snd_dset (d : List (Nat × Nat)) (k v x : Nat)
    (hx : x ∈ (dset d k v).map Prod.snd) : x ∈ d.map Prod.snd ∨ x = v := by
  unfold dset at hx
  split_ifs at hx with h
  · rw [List.map_map] at hx
    obtain ⟨p, hp, hpx⟩ := List.mem_map.mp hx
    by_cases hpk : p.1 = k
    · simp only [Function.comp_apply, if_pos hpk] at hpx
      exact Or.inr hpx.symm
    · simp only [Function.comp_apply, if_neg hpk] at hpx
      exact Or.inl (List.mem_map.mpr ⟨p, hp, hpx⟩)
  · rw [List.map_append] at hx
    rcases List.mem_append.mp hx with h1 | h1
    · exact Or.inl h1
    · simp only [List.map_cons, List.map_nil, List.mem_singleton] at h1
      exact Or.inr h1

theorem mem_keys_foldl_dset :
    ∀ (l : List Nat) (d : List (Nat × Nat)) (x : Nat),
      x ∈ (l.foldl (fun d b => dset d b 0) d).map Prod.fst ↔
        x ∈ d.map Prod.fst ∨ x ∈ l
  | [], d, x => by simp
  | b :: l, d, x => by
    rw [List.foldl_cons, mem_keys_foldl_dset l (dset d b 0) x, mem_keys_dset_iff,
      List.mem_cons]
    constructor
    · rintro ((h | rfl) | h)
      · exact Or.inl h
      · exact Or.inr (Or.inl rfl)
      · exact Or.inr (Or.inr h)
    · rintro (h | rfl | h)
      · exact Or.inl (Or.inl h)
      · exact Or.inl (Or.inr rfl)
      · exact Or.inr h

theorem foldl_connStep_snd_subset :
    ∀ (conns : List (Nat × Nat)) (m : List (Nat × Nat) × List (Nat × Nat)) (x : Nat),
      x ∈ (conns.foldl connStep m).1.map Prod.snd →
      x ∈ m.1.map Prod.snd ∨ x ∈ conns.map Prod.snd
  | [], _, _ => fun h => Or.inl h
  | c :: conns, m, x => fun h => by
    rw [List.foldl_cons] at h
    rcases foldl_connStep_snd_subset conns (connStep m c) x h with h1 | h1
    · rcases mem_snd_dset m.1 c.1 c.2 x h1 with h2 | rfl
      · exact Or.inl h2
      · exact Or.inr (by simp)
    · exact Or.inr (by simp [h1])

theorem foldl_connStep_inc_keys :
    ∀ (conns : List (Nat × Nat)) (m : List (Nat × Nat) × List (Nat × Nat)) (x : Nat),
      x ∈ (conns.foldl connStep m).2.map Prod.fst →
      x ∈ m.2.map Prod.fst ∨ x ∈ conns.map Prod.fst ∨ x ∈ conns.map Prod.snd
  | [], _, _ => fun h => Or.inl h
  | c :: conns, m, x => fun h => by
    rw [List.foldl_cons] at h
    rcases foldl_connStep_inc_keys conns (connStep m c) x h with h1 | h1 | h1
    · rcases (mem_keys_dsetdefault_iff _ c.1 0 x).mp h1 with h2 | rfl
      · rcases (mem_keys_dset_iff m.2 c.2 _ x).mp h2 with h3 | rfl
        · exact Or.inl h3
        · exact Or.inr (Or.inr (by simp))
      · exact Or.inr (Or.inl (by simp))
    · exact Or.inr (Or.inl (by simp [h1]))
    · exact Or.inr (Or.inr (by simp [h1]))

theorem walk_subset (out : List (Nat × Nat)) (S : List Nat)
    (hout : ∀ t ∈ out.map Prod.snd, t ∈ S) :
    ∀ (f : Nat) (b : Option Nat) (v : List Nat),
      (∀ x ∈ v, x ∈ S) → (∀ x, b = some x → x ∈ S) →
      ∀ y ∈ walk out f b v, y ∈ S
  | 0, _, v, hv, _ => hv
  | _ + 1, none, v, hv, _ => hv
  | f + 1, some x, v, hv, hb => by
    rw [walk_succ_some]
    split_ifs with hxv
    · exact hv
    · refine walk_subset out S hout f (dget out x) (v ++ [x]) ?_ ?_
      · intro y hy
        rcases List.mem_append.mp hy with h1 | h1
        · exact hv y h1
        · have h2 : y = x := by simpa using h1
          rw [h2]
          exact hb x rfl
      · intro y hy
        exact hout y (dget_mem_snd out x y hy)

theorem walk_nodup (out : List (Nat × Nat)) :
    ∀ (f : Nat) (b : Option Nat) (v : List Nat), v.Nodup → (walk out f b v).Nodup
  | 0, _, _, hv => hv
  | _ + 1, none, _, hv => hv
  | f + 1, some x, v, hv => by
    rw [walk_succ_some]
    split_ifs with hxv
    · exact hv
    · refine walk_nodup out f (dget out x) (v ++ [x]) ?_
      simp [List.nodup_append, hv, hxv]

theorem foldl_walk_subset_nodup (out : List (Nat × Nat)) (S : List Nat) (f : Nat)
    (hout : ∀ t ∈ out.map Prod.snd, t ∈ S) :
    ∀ (starts v : List Nat), (∀ x ∈ v, x ∈ S) → v.Nodup →
      (∀ st ∈ starts, st ∈ S) →
      (∀ x ∈ starts.foldl (fun v st => walk out f (some st) v) v, x ∈ S) ∧
        (starts.foldl (fun v st => walk out f (some st) v) v).Nodup
  | [], v, hv, hnd, _ => ⟨hv, hnd⟩
  | st :: starts, v, hv, hnd, hst => by
    rw [List.foldl_cons]
    refine foldl_walk_subset_nodup out S f hout starts _ ?_ ?_ ?_
    · exact walk_subset out S hout f (some st) v hv
        (fun x hx => (Option.some.inj hx) ▸ hst st (by simp))
    · exact walk_nodup out f (some st) v hnd
    · intro y hy
      exact hst y (by simp [hy])

theorem mem_foldl_addMissing :
    ∀ (l v : List Nat) (x : Nat),
      x ∈ l.foldl (fun v b => if b ∈ v then v else v ++ [b]) v ↔ x ∈ v ∨ x ∈ l
  | [], v, x => by simp
  | b :: l, v, x => by
    rw [List.foldl_cons]
    by_cases hb : b ∈ v
    · rw [if_pos hb, mem_foldl_addMissing l v x, List.mem_cons]
      constructor
      · rintro (h | h)
        · exact Or.inl h
        · exact Or.inr (Or.inr h)
      · rintro (h | rfl | h)
        · exact Or.inl h
        · exact Or.inl hb
        · exact Or.inr h
    · rw [if_neg hb, mem_foldl_addMissing l (v ++ [b]) x, List.mem_append,
        List.mem_singleton, List.mem_cons]
      tauto

theorem nodup_foldl_addMissing :
    ∀ (l v : List Nat), v.Nodup →
      (l.foldl (fun v b => if b ∈ v then v else v ++ [b]) v).Nodup
  | [], _, h => h
  | b :: l, v, h => by
    rw [List.foldl_cons]
    refine nodup_foldl_addMissing l _ ?_
    by_cases hb : b ∈ v
    · rw [if_pos hb]
      exact h
    · rw [if_neg hb]
      simp [List.nodup_append, h, hb]

theorem ordered_ids_perm (blocks : List Nat) (conns : List (Nat × Nat))
    (hnd : blocks.Nodup)
    (hc : ∀ p ∈ conns, p.1 ∈ blocks ∧ p.2 ∈ blocks) :
    (ordered_ids blocks conns).Perm blocks := by
  unfold ordered_ids orderedIdsWith
  by_cases hb : blocks = []
  · rw [if_pos hb]
    subst hb
    rfl
  rw [if_neg hb]
  dsimp only
  have hsnd : ∀ t ∈ (buildMaps blocks conns).1.map Prod.snd, t ∈ blocks := by
    intro t ht
    rcases foldl_connStep_snd_subset conns ([], initIncoming blocks) t
        (by simpa [buildMaps] using ht) with h1 | h1
    · simp at h1
    · obtain ⟨p, hp, hpt⟩ := List.mem_map.mp h1
      exact hpt ▸ (hc p hp).2
  have hkeys : ∀ x ∈ (buildMaps blocks conns).2.map Prod.fst, x ∈ blocks := by
    intro x hx
    rcases foldl_connStep_inc_keys conns ([], initIncoming blocks) x
        (by simpa [buildMaps] using hx) with h1 | h1 | h1
    · rcases (mem_keys_foldl_dset blocks [] x).mp (by simpa [initIncoming] using h1)
          with h2 | h2
      · simp at h2
      · exact h2
    · obtain ⟨p, hp, hpt⟩ := List.mem_map.mp h1
      exact hpt ▸ (hc p hp).1
    · obtain ⟨p, hp, hpt⟩ := List.mem_map.mp h1
      exact hpt ▸ (hc p hp).2
  have hvisited : ∀ visited : List Nat,
      (∀ x ∈ visited, x ∈ blocks) → visited.Nodup →
      (blocks.foldl (fun v b => if b ∈ v then v else v ++ [b]) visited).Perm blocks := by
    intro visited hsub hvnd
    refine (List.perm_ext_iff_of_nodup (nodup_foldl_addMissing blocks visited hvnd)
      hnd).mpr ?_
    intro a
    rw [mem_foldl_addMissing]
    constructor
    · rintro (h | h)
      · exact hsub a h
      · exact h
    · exact Or.inr
  by_cases hst : ((buildMaps blocks conns).2.filter (fun p =>
      decide (p.2 = 0) &&
        (buildMaps blocks conns).1.any (fun q => decide (q.1 = p.1)))).map
          Prod.fst = []
  · rw [if_pos hst]
    exact hvisited blocks (fun x hx => hx) hnd
  · rw [if_neg hst]
    have hstS : ∀ st ∈ ((buildMaps blocks conns).2.filter (fun p =>
        decide (p.2 = 0) &&
          (buildMaps blocks conns).1.any (fun q => decide (q.1 = p.1)))).map
            Prod.fst, st ∈ blocks := by
      intro st hstm
      obtain ⟨p, hp, hpt⟩ := List.mem_map.mp hstm
      exact hkeys st (hpt ▸ List.mem_map.mpr ⟨p, List.mem_of_mem_filter hp, rfl⟩)
    have hfold := foldl_walk_subset_nodup (buildMaps blocks conns).1 blocks
      (blocks.length + conns.length + 1) hsnd
      (((buildMaps blocks conns).2.filter (fun p =>
        decide (p.2 = 0) &&
          (buildMaps blocks conns).1.any (fun q => decide (q.1 = p.1)))).map
            Prod.fst) []
      (by intro x hx; cases hx) List.nodup_nil hstS
    exact hvisited _ hfold.1 hfold.2

theorem find?_id_self (blocks : List CanvasBlock) :
    ∀ (_ : (blocks.map CanvasBlock.id).Nodup) (b : CanvasBlock), b ∈ blocks →
      blocks.find? (fun x => decide (x.id = b.id)) = some b := by
  induction blocks with
  | nil =>
    intro _ b hb
    cases hb
  | cons h t ih =>
    intro hids b hb
    have hids2 := hids
    rw [List.map_cons, List.nodup_cons] at hids2
    rcases List.mem_cons.mp hb with rfl | hmem
    · rw [List.find?_cons_of_pos _ (by simp)]
    · have hne : ¬h.id = b.id := by
        intro heq
        exact hids2.1 (heq ▸ List.mem_map.mpr ⟨b, hmem, rfl⟩)
      rw [List.find?_cons_of_neg _ (by simpa using hne)]
      exact ih hids2.2 b hmem

theorem filterMap_self {α : Type} (g : α → Option α) :
    ∀ (l : List α), (∀ b ∈ l, g b = some b) → l.filterMap g = l
  | [], _ => rfl
  | b :: l, h => by
    rw [List.filterMap_cons, h b (List.mem_cons_self b l)]
    rw [filterMap_self g l (fun x hx => h x (List.mem_cons_of_mem b hx))]

/-- **C4**: for every editor state whose placed blocks are distinct objects
and whose connections join placed blocks, `ordered_blocks` returns a
permutation of the placed blocks — each placed block appears exactly
once. -/
theorem c4_ordered_blocks_perm (s : EditorState)
    (hids : (s.canvas_blocks.map CanvasBlock.id).Nodup)
    (hconn : ∀ p ∈ s.connections,
      p.1 ∈ s.canvas_blocks.map CanvasBlock.id ∧
      p.2 ∈ s.canvas_blocks.map CanvasBlock.id) :
    (ordered_blocks s).Perm s.canvas_blocks := by
  unfold ordered_blocks
  have hperm := ordered_ids_perm (s.canvas_blocks.map CanvasBlock.id)
    s.connections hids hconn
  have h2 := List.Perm.filterMap
    (fun i => s.canvas_blocks.find? (fun b => decide (b.id = i))) hperm
  refine h2.trans ?_
  rw [List.filterMap_map]
  have h3 : ((fun i => s.canvas_blocks.find? (fun b => decide (b.id = i)))
      ∘ CanvasBlock.id)
      = fun b => s.canvas_blocks.find? (fun x => decide (x.id = b.id)) := rfl
  rw [h3, filterMap_self _ s.canvas_blocks
    (fun b hb => find?_id_self s.canvas_blocks hids b hb)]

/-- **C4** (witness): three blocks with an unreachable sub-chain. -/
theorem c4_ordered_blocks_perm_witness :
    (ordered_blocks ⟨[⟨1, "a", []⟩, ⟨2, "b", []⟩, ⟨3, "c", []⟩], [(3, 2)]⟩).Perm
      [⟨1, "a", []⟩, ⟨2, "b", []⟩, ⟨3, "c", []⟩] :=
  c4_ordered_blocks_perm ⟨[⟨1, "a", []⟩, ⟨2, "b", []⟩, ⟨3, "c", []⟩], [(3, 2)]⟩
    (by decide) (by decide)
